import Mathlib

/-!
Shallow embedding of the selection, scroll-shadow, context-menu and
pagination logic of `src/package/DataTable.tsx` (mantine-datatable),
with theorems checking the specification's claims about it.
-/

namespace DataTable

/-- JavaScript `Math.round` on a rational: `⌊q + 1/2⌋` (half rounds up). -/
def jsRound (q : ℚ) : ℤ := ⌊q + 1 / 2⌋

/-- Vertical edge flags, from `DataTable.tsx` lines 105-112:
`if (fetching || tableHeight <= scrollViewportHeight) { top := true; bottom := true }
else { top := scrollTop === 0; bottom := Math.round(tableHeight - scrollTop) === Math.round(scrollViewportHeight) }`.
Returns `(scrolledToTop, scrolledToBottom)`. -/
def verticalFlags (fetching : Bool) (tableHeight scrollViewportHeight scrollTop : ℚ) :
    Bool × Bool :=
  if fetching || decide (tableHeight ≤ scrollViewportHeight) then (true, true)
  else (decide (scrollTop = 0),
        decide (jsRound (tableHeight - scrollTop) = jsRound scrollViewportHeight))

/-- Horizontal edge flags, from `DataTable.tsx` lines 114-121. Note the guard is
`tableWidth === scrollViewportWidth` (strict equality), unlike the vertical `<=`.
Returns `(scrolledToLeft, scrolledToRight)`. -/
def horizontalFlags (fetching : Bool) (tableWidth scrollViewportWidth scrollLeft : ℚ) :
    Bool × Bool :=
  if fetching || decide (tableWidth = scrollViewportWidth) then (true, true)
  else (decide (scrollLeft = 0),
        decide (jsRound (tableWidth - scrollLeft) = jsRound scrollViewportWidth))

variable {α κ : Type} [DecidableEq κ]

/-- lodash `uniqBy` worker: keep an element iff its key was not seen before,
accumulating the keys already kept in `seen`. -/
def uniqByAux (key : α → κ) (seen : List κ) : List α → List α
  | [] => []
  | r :: rs =>
    if key r ∈ seen then uniqByAux key seen rs
    else r :: uniqByAux key (key r :: seen) rs

/-- lodash `uniqBy(l, key)`: first occurrence of each key is kept, in order. -/
def uniqBy (key : α → κ) (l : List α) : List α := uniqByAux key [] l

/-- lodash `differenceBy(s, i, key)`: the elements of `s` whose key does not
occur among the keys of `i`, in order (no de-duplication of `s`). -/
def differenceBy (key : α → κ) (s i : List α) : List α :=
  s.filter fun r => decide (key r ∉ i.map key)

/-- `allRecordsSelected` from `DataTable.tsx` lines 143-145:
`hasRecordsAndSelectedRecords && recordIds.every((id) => selectedRecordIds.includes(id))`,
where `hasRecordsAndSelectedRecords` requires `selectedRecordIds.length > 0`.
`records` and `selectedRecords` are modelled as present lists. -/
def allRecordsSelected (key : α → κ) (records selectedRecords : List α) : Bool :=
  !selectedRecords.isEmpty &&
    (records.map key).all fun id => decide (id ∈ selectedRecords.map key)

/-- Header checkbox handler (`onSelectionChange`, `DataTable.tsx` lines 200-210):
if all records are selected, drop every selected record whose key occurs among
the record keys; otherwise union the records into the selection, de-duplicated
by key. -/
def toggleAll (key : α → κ) (records selectedRecords : List α) : List α :=
  if allRecordsSelected key records selectedRecords then
    selectedRecords.filter fun r => decide (key r ∉ records.map key)
  else uniqBy key (selectedRecords ++ records)

/-- Row checkbox plain-toggle branch (`DataTable.tsx` lines 240-246):
if the clicked record's key is selected, remove entries with that key,
else append the record de-duplicated by key. -/
def toggleRecord (key : α → κ) (selectedRecords : List α) (record : α) : List α :=
  if key record ∈ selectedRecords.map key then
    selectedRecords.filter fun r => decide (key r ≠ key record)
  else uniqBy key (selectedRecords ++ [record])

/-- `recordsInterval` (`DataTable.tsx` lines 230-234): the records whose index
lies between the anchor (`lastSelectionChangeIndex`) and the clicked index,
inclusive, keeping the branch structure of the source
(`recordIndex > lastSelectionChangeIndex ? ... : ...`). -/
def recordsInterval (records : List α) (anchor clicked : ℕ) : List α :=
  if anchor < clicked then
    (records.enum.filter fun p => decide (anchor ≤ p.1 ∧ p.1 ≤ clicked)).map Prod.snd
  else
    (records.enum.filter fun p => decide (clicked ≤ p.1 ∧ p.1 ≤ anchor)).map Prod.snd

/-- Row checkbox shift-range branch (`DataTable.tsx` lines 229-239): `record`
is the row at index `clicked` (the `records.map` callback argument); if its key
is selected, `differenceBy` removes the interval's keys from the selection,
else `uniqBy` unions the interval into the selection. -/
def shiftRangeToggle (key : α → κ) (records selectedRecords : List α)
    (anchor clicked : ℕ) (record : α) : List α :=
  let interval := recordsInterval records anchor clicked
  if key record ∈ selectedRecords.map key then
    differenceBy key selectedRecords interval
  else uniqBy key (selectedRecords ++ interval)

/-- The whole row `onSelectionChange` handler (`DataTable.tsx` lines 228-248):
the shift branch runs only when the shift key is down and the anchor
(`lastSelectionChangeIndex`) is not `null`; afterwards the anchor is set to the
clicked index. Returns the new selection and the new anchor. -/
def rowSelectionChange (key : α → κ) (records selectedRecords : List α)
    (anchor : Option ℕ) (shiftKey : Bool) (record : α) (recordIndex : ℕ) :
    List α × Option ℕ :=
  match shiftKey, anchor with
  | true, some a =>
    (shiftRangeToggle key records selectedRecords a recordIndex record, some recordIndex)
  | _, _ => (toggleRecord key selectedRecords record, some recordIndex)

/-- `recordIdsString` (`DataTable.tsx` line 150): `recordIds?.join(':') || ''`.
`none` models `records === undefined`; joining with `:` models `join(':')`
(`'' || ''` is `''`, so the falsy fallback only matters for `undefined`). -/
def recordIdsString : Option (List String) → String
  | none => ""
  | some ids => String.intercalate ":" ids

/-- The `useEffect` on `[recordIdsString]` (`DataTable.tsx` lines 151-153):
the anchor is reset to `null` exactly when the dependency string changed
between renders; otherwise it is kept. -/
def stepRecordIdsChange (anchor : Option ℕ) (oldIds newIds : Option (List String)) :
    Option ℕ :=
  if recordIdsString oldIds = recordIdsString newIds then anchor else none

/-- The widget state touched by the scroll / fetching logic: the `useState`
cells of `DataTable.tsx` lines 92-97. `contextMenuInfo` holds
`(top, left, record)`. -/
structure TableState (α : Type) where
  fetching : Bool
  scrolledToTop : Bool
  scrolledToBottom : Bool
  scrolledToLeft : Bool
  scrolledToRight : Bool
  contextMenuInfo : Option (ℚ × ℚ × α)

/-- `onScrollPositionChange` (`DataTable.tsx` lines 102-122) as a state
transition: clear the context menu only when NOT fetching (line 103), then set
the four flags from the measured sizes and offsets. -/
def onScrollPositionChange (s : TableState α)
    (tableWidth tableHeight scrollViewportWidth scrollViewportHeight
      scrollLeft scrollTop : ℚ) : TableState α :=
  let s1 := if !s.fetching then { s with contextMenuInfo := none } else s
  let vert := verticalFlags s1.fetching tableHeight scrollViewportHeight scrollTop
  let horiz := horizontalFlags s1.fetching tableWidth scrollViewportWidth scrollLeft
  { s1 with
    scrolledToTop := vert.1
    scrolledToBottom := vert.2
    scrolledToLeft := horiz.1
    scrolledToRight := horiz.2 }

/-- The `useEffect` on `[fetching]` (`DataTable.tsx` lines 98-100):
`if (fetching) setContextMenuInfo(null)`. -/
def fetchingEffect (s : TableState α) : TableState α :=
  if s.fetching then { s with contextMenuInfo := none } else s

/-- A row right-click with the context menu enabled and not disabled for the
row (`DataTable.tsx` lines 252-259): `setContextMenuInfo` with the new
coordinates and record. -/
def rowRightClick (s : TableState α) (top left : ℚ) (record : α) : TableState α :=
  { s with contextMenuInfo := some (top, left, record) }

/-- Imperative effects the handlers perform, in order: state writes and calls
out of the widget (scrolling the viewport, invoking caller callbacks). -/
inductive Effect (α : Type) where
  | setContextMenuInfo : Option (ℚ × ℚ × α) → Effect α
  | scrollTo : ℚ → ℚ → Effect α
  | invokePageChange : ℕ → Effect α
  | invokeItemClick : α → Effect α

/-- How an effect acts on the widget state: only `setContextMenuInfo` writes
widget state; scrolling and callback invocations leave it unchanged. -/
def applyEffect (s : TableState α) : Effect α → TableState α
  | Effect.setContextMenuInfo m => { s with contextMenuInfo := m }
  | Effect.scrollTo _ _ => s
  | Effect.invokePageChange _ => s
  | Effect.invokeItemClick _ => s

/-- `handlePageChange` (`DataTable.tsx` lines 135-138):
`scrollViewportRef.current.scrollTo({ top: 0, left: 0 }); onPageChange!(page)`,
as the ordered list of effects it performs. -/
def handlePageChange (α : Type) (page : ℕ) : List (Effect α) :=
  [Effect.scrollTo 0 0, Effect.invokePageChange page]

/-- A context-menu item as rendered (`DataTable.tsx` lines 301-322): only the
fields the claims are about. `hidden` models
`typeof hidden === 'function' ? hidden(record) : hidden` (a constant function
models the plain boolean form). -/
structure MenuItem (α : Type) where
  key : String
  hiddenFor : α → Bool

/-- The items actually rendered for the open menu's record
(`DataTable.tsx` line 303): `if (hidden(record)) return null`. -/
def renderedMenuItems (items : List (MenuItem α)) (record : α) : List (MenuItem α) :=
  items.filter fun it => !it.hiddenFor record

/-- Clicking a rendered menu item (`DataTable.tsx` lines 316-319):
`setContextMenuInfo(null); onClick(record)`, as its ordered effect list, where
`record` is the record stored in the open `contextMenuInfo`. -/
def menuItemClick (info : ℚ × ℚ × α) : List (Effect α) :=
  [Effect.setContextMenuInfo none, Effect.invokeItemClick info.2.2]

/-- The open context-menu instances derivable from the state: the stored
triple, if any. -/
def openMenuInstances (s : TableState α) : List (ℚ × ℚ × α) :=
  s.contextMenuInfo.toList

theorem mem_keys_uniqByAux (key : α → κ) (l : List α) (k : κ) :
    ∀ seen : List κ,
      k ∈ (uniqByAux key seen l).map key ↔ k ∈ l.map key ∧ k ∉ seen := by
  induction l with
  | nil => intro seen; simp [uniqByAux]
  | cons r rs ih =>
    intro seen
    by_cases h : key r ∈ seen
    · rw [uniqByAux, if_pos h, ih seen]
      simp only [List.map_cons, List.mem_cons]
      constructor
      · rintro ⟨hk, hs⟩; exact ⟨Or.inr hk, hs⟩
      · rintro ⟨hk | hk, hs⟩
        · exact absurd (hk ▸ h) hs
        · exact ⟨hk, hs⟩
    · rw [uniqByAux, if_neg h]
      simp only [List.map_cons, List.mem_cons, ih (key r :: seen)]
      constructor
      · rintro (rfl | ⟨hk, hs⟩)
        · exact ⟨Or.inl rfl, h⟩
        · exact ⟨Or.inr hk, fun hc => hs (Or.inr hc)⟩
      · rintro ⟨rfl | hk, hs⟩
        · exact Or.inl rfl
        · by_cases hkr : k = key r
          · exact Or.inl hkr
          · exact Or.inr ⟨hk, by simp [hkr, hs]⟩

theorem mem_keys_uniqBy (key : α → κ) (l : List α) (k : κ) :
    k ∈ (uniqBy key l).map key ↔ k ∈ l.map key := by
  rw [uniqBy, mem_keys_uniqByAux key l k []]
  simp

theorem mem_keys_append_uniqBy (key : α → κ) (s l : List α) (k : κ) :
    k ∈ (uniqBy key (s ++ l)).map key ↔ k ∈ s.map key ∨ k ∈ l.map key := by
  rw [mem_keys_uniqBy]
  simp

theorem keys_uniqByAux_not_seen (key : α → κ) (l : List α) (seen : List κ) :
    ∀ x ∈ uniqByAux key seen l, key x ∉ seen := by
  intro x hx
  have hk : key x ∈ (uniqByAux key seen l).map key := List.mem_map_of_mem key hx
  exact ((mem_keys_uniqByAux key l (key x) seen).mp hk).2

theorem pairwise_keys_uniqByAux (key : α → κ) (l : List α) :
    ∀ seen : List κ,
      (uniqByAux key seen l).Pairwise fun x y => key x ≠ key y := by
  induction l with
  | nil => intro seen; simp [uniqByAux]
  | cons r rs ih =>
    intro seen
    by_cases h : key r ∈ seen
    · rw [uniqByAux, if_pos h]; exact ih seen
    · rw [uniqByAux, if_neg h]
      refine List.Pairwise.cons ?_ (ih (key r :: seen))
      intro b hb hkey
      exact keys_uniqByAux_not_seen key rs (key r :: seen) b hb
        (hkey ▸ List.mem_cons_self (key r) seen)

theorem pairwise_keys_uniqBy (key : α → κ) (l : List α) :
    (uniqBy key l).Pairwise fun x y => key x ≠ key y :=
  pairwise_keys_uniqByAux key l []

theorem mem_keys_filter_not_mem (key : α → κ) (s : List α) (ids : List κ) (k : κ) :
    k ∈ (s.filter fun r => decide (key r ∉ ids)).map key ↔
      k ∈ s.map key ∧ k ∉ ids := by
  simp only [List.mem_map, List.mem_filter, decide_eq_true_eq]
  constructor
  · rintro ⟨a, ⟨ha, hp⟩, rfl⟩; exact ⟨⟨a, ha, rfl⟩, hp⟩
  · rintro ⟨⟨a, ha, rfl⟩, hk⟩; exact ⟨a, ⟨ha, hk⟩, rfl⟩

theorem mem_keys_filter_key_ne (key : α → κ) (s : List α) (record : α) (k : κ) :
    k ∈ (s.filter fun r => decide (key r ≠ key record)).map key ↔
      k ∈ s.map key ∧ k ≠ key record := by
  simp only [List.mem_map, List.mem_filter, decide_eq_true_eq]
  constructor
  · rintro ⟨a, ⟨ha, hp⟩, rfl⟩; exact ⟨⟨a, ha, rfl⟩, hp⟩
  · rintro ⟨⟨a, ha, rfl⟩, hk⟩; exact ⟨a, ⟨ha, hk⟩, rfl⟩

theorem mem_keys_differenceBy (key : α → κ) (s i : List α) (k : κ) :
    k ∈ (differenceBy key s i).map key ↔ k ∈ s.map key ∧ k ∉ i.map key :=
  mem_keys_filter_not_mem key s (i.map key) k

omit [DecidableEq κ] in
theorem ne_nil_of_mem_keys (key : α → κ) (l : List α) (k : κ)
    (h : k ∈ l.map key) : l ≠ [] := by
  rintro rfl; simp at h

theorem allRecordsSelected_iff (key : α → κ) (records selectedRecords : List α) :
    allRecordsSelected key records selectedRecords = true ↔
      selectedRecords ≠ [] ∧
        ∀ k ∈ records.map key, k ∈ selectedRecords.map key := by
  simp [allRecordsSelected, List.isEmpty_iff, List.all_eq_true]

theorem mem_keys_toggleAll_of_all (key : α → κ) (records selectedRecords : List α)
    (h : allRecordsSelected key records selectedRecords = true) (k : κ) :
    k ∈ (toggleAll key records selectedRecords).map key ↔
      k ∈ selectedRecords.map key ∧ k ∉ records.map key := by
  rw [toggleAll, if_pos h]
  exact mem_keys_filter_not_mem key selectedRecords (records.map key) k

theorem mem_keys_toggleAll_of_not_all (key : α → κ) (records selectedRecords : List α)
    (h : allRecordsSelected key records selectedRecords = false) (k : κ) :
    k ∈ (toggleAll key records selectedRecords).map key ↔
      k ∈ selectedRecords.map key ∨ k ∈ records.map key := by
  rw [toggleAll, if_neg (by simp [h])]
  exact mem_keys_append_uniqBy key selectedRecords records k

theorem recordsInterval_min_max (records : List α) (a j : ℕ) :
    recordsInterval records a j =
      (records.enum.filter fun p => decide (min a j ≤ p.1 ∧ p.1 ≤ max a j)).map
        Prod.snd := by
  rw [recordsInterval]
  by_cases h : a < j
  · rw [if_pos h, min_eq_left h.le, max_eq_right h.le]
  · rw [if_neg h, min_eq_right (le_of_not_lt h), max_eq_left (le_of_not_lt h)]

theorem recordsInterval_comm (records : List α) (a j : ℕ) :
    recordsInterval records a j = recordsInterval records j a := by
  rw [recordsInterval_min_max records a j, recordsInterval_min_max records j a]
  simp only [show min a j = min j a from min_comm a j,
    show max a j = max j a from max_comm a j]

/-- **C5**: for the vertical scroll flags, when not fetching: if content height
`c` ≤ viewport height `v`, both flags are true; otherwise scrolled-to-top holds
iff the scroll offset `o` is exactly zero, and scrolled-to-bottom holds iff
`round(c - o) = round(v)`; for content 600, viewport 500, scrollTop 100 this
yields at-top false and at-bottom true. -/
theorem c5_vertical_flags (c v o : ℚ) :
    (c ≤ v → verticalFlags false c v o = (true, true)) ∧
    (v < c →
      ((verticalFlags false c v o).1 = true ↔ o = 0) ∧
      ((verticalFlags false c v o).2 = true ↔ jsRound (c - o) = jsRound v)) ∧
    verticalFlags false 600 500 100 = (false, true) := by
  refine ⟨?_, ?_, ?_⟩
  · intro h; simp [verticalFlags, h]
  · intro h
    have h2 : ¬ (c ≤ v) := not_le.mpr h
    simp [verticalFlags, h2]
  · have h1 : ¬ ((600:ℚ) ≤ 500) := by norm_num
    have h2 : (600:ℚ) - 100 = 500 := by norm_num
    have h3 : ¬ ((100:ℚ) = 0) := by norm_num
    simp [verticalFlags, h1, h2, h3]

/-- Witness for `c5_vertical_flags` at content 500 = viewport 500 (forced true)
and at content 600, viewport 500, scrollTop 100 (the overflow case). -/
theorem c5_vertical_flags_witness :
    verticalFlags false 500 500 0 = (true, true) ∧
    (((verticalFlags false 600 500 100).1 = true ↔ (100:ℚ) = 0) ∧
      ((verticalFlags false 600 500 100).2 = true ↔
        jsRound ((600:ℚ) - 100) = jsRound 500)) :=
  ⟨(c5_vertical_flags 500 500 0).1 (le_refl 500),
   (c5_vertical_flags 600 500 100).2.1 (by norm_num)⟩

/-- **C3** counterexample: the horizontal logic is NOT symmetric to the
vertical one. The horizontal no-overflow guard is strict equality
(`tableWidth === scrollViewportWidth`), not `<=`: at content width 100,
viewport width 200, offset 0 (no horizontal overflow, not fetching) the
horizontal flags are `(true, false)` while the vertical flags on the same
values are `(true, true)`, so the claim that content width ≤ viewport width
forces both horizontal flags true fails. -/
theorem c3_horizontal_not_symmetric :
    (100:ℚ) ≤ 200 ∧
    horizontalFlags false 100 200 0 ≠ verticalFlags false 100 200 0 ∧
    (horizontalFlags false 100 200 0).2 = false := by
  have h1 : ((100:ℚ) = 200) = False := by norm_num
  have h2 : jsRound (100:ℚ) = 100 := by norm_num [jsRound]
  have h3 : jsRound (200:ℚ) = 200 := by norm_num [jsRound]
  have h4 : ((100:ℚ) ≤ 200) := by norm_num
  refine ⟨h4, ?_, ?_⟩ <;> simp [horizontalFlags, verticalFlags, h1, h2, h3, h4]

/-- **C3** (amended): the horizontal edge-flag computation agrees with the
vertical one whenever content width ≥ viewport width; its no-overflow guard is
the equality `content = viewport` (not `≤`), so when the two widths are equal
both horizontal flags are forced true, but when content width < viewport width
the horizontal flags are computed from the offset instead of being forced. -/
theorem c3_flags_symmetry_amended (f : Bool) (c v o : ℚ) :
    (v ≤ c → horizontalFlags f c v o = verticalFlags f c v o) ∧
    (c = v → horizontalFlags f c v o = (true, true)) := by
  constructor
  · intro hvc
    by_cases hf : f = true
    · simp [horizontalFlags, verticalFlags, hf]
    · have hf2 : f = false := by simpa using hf
      by_cases hce : c = v
      · simp [horizontalFlags, verticalFlags, hf2, hce]
      · have hcv : ¬ (c ≤ v) := fun hle => hce (le_antisymm hle hvc)
        simp [horizontalFlags, verticalFlags, hf2, hce, hcv]
  · intro hce
    simp [horizontalFlags, hce]

/-- Witness for `c3_flags_symmetry_amended` at equal widths 500 = 500. -/
theorem c3_flags_symmetry_amended_witness :
    horizontalFlags false 500 500 3 = verticalFlags false 500 500 3 ∧
    horizontalFlags false 500 500 3 = (true, true) :=
  ⟨(c3_flags_symmetry_amended false 500 500 3).1 (le_refl 500),
   (c3_flags_symmetry_amended false 500 500 3).2 rfl⟩

/-- **C7** counterexample: a scroll-position evaluation while `fetching` is
true does NOT clear the context-menu state (`DataTable.tsx` line 103 clears it
only when `!fetching`): starting from a fetching state with an open menu, the
menu is still open after the evaluation. -/
theorem c7_scroll_during_fetch_keeps_menu :
    (TableState.mk true false false false false (some (1, 2, (7:ℕ)))).fetching
        = true ∧
    (onScrollPositionChange
        (TableState.mk true false false false false (some (1, 2, (7:ℕ))))
        100 100 50 50 3 3).contextMenuInfo = some (1, 2, 7) ∧
    (onScrollPositionChange
        (TableState.mk true false false false false (some (1, 2, (7:ℕ))))
        100 100 50 50 3 3).contextMenuInfo ≠ none := by
  refine ⟨rfl, rfl, ?_⟩
  intro h
  simp [onScrollPositionChange] at h

/-- **C7** (amended): while the fetching flag is true, every evaluation of the
scroll-position logic sets all four scrolled-to flags to true regardless of
sizes and offsets, but leaves the context-menu state unchanged; the menu is
cleared by the effect that runs when `fetching` is true, and by
scroll-position evaluations only when not fetching. -/
theorem c7_fetching_flags_amended (s : TableState α)
    (tw th vw vh sl st : ℚ) :
    (s.fetching = true →
      (onScrollPositionChange s tw th vw vh sl st).scrolledToTop = true ∧
      (onScrollPositionChange s tw th vw vh sl st).scrolledToBottom = true ∧
      (onScrollPositionChange s tw th vw vh sl st).scrolledToLeft = true ∧
      (onScrollPositionChange s tw th vw vh sl st).scrolledToRight = true ∧
      (onScrollPositionChange s tw th vw vh sl st).contextMenuInfo
          = s.contextMenuInfo ∧
      (fetchingEffect s).contextMenuInfo = none) ∧
    (s.fetching = false →
      (onScrollPositionChange s tw th vw vh sl st).contextMenuInfo = none) := by
  constructor
  · intro h
    refine ⟨?_, ?_, ?_, ?_, ?_, ?_⟩ <;>
      simp [onScrollPositionChange, fetchingEffect, verticalFlags,
        horizontalFlags, h]
  · intro h
    simp [onScrollPositionChange, h]

/-- Witness for `c7_fetching_flags_amended`: a fetching state with an open
menu, and a non-fetching state with an open menu. -/
theorem c7_fetching_flags_amended_witness :
    ((onScrollPositionChange
        (TableState.mk true false false false false (some (1, 2, (7:ℕ))))
        100 100 50 50 3 3).scrolledToTop = true ∧
      (onScrollPositionChange
        (TableState.mk true false false false false (some (1, 2, (7:ℕ))))
        100 100 50 50 3 3).scrolledToBottom = true ∧
      (onScrollPositionChange
        (TableState.mk true false false false false (some (1, 2, (7:ℕ))))
        100 100 50 50 3 3).scrolledToLeft = true ∧
      (onScrollPositionChange
        (TableState.mk true false false false false (some (1, 2, (7:ℕ))))
        100 100 50 50 3 3).scrolledToRight = true ∧
      (onScrollPositionChange
        (TableState.mk true false false false false (some (1, 2, (7:ℕ))))
        100 100 50 50 3 3).contextMenuInfo
          = (TableState.mk true false false false false
              (some (1, 2, (7:ℕ)))).contextMenuInfo ∧
      (fetchingEffect
        (TableState.mk true false false false false
          (some (1, 2, (7:ℕ))))).contextMenuInfo = none) ∧
    (onScrollPositionChange
        (TableState.mk false false false false false (some (1, 2, (7:ℕ))))
        100 100 50 50 3 3).contextMenuInfo = none :=
  ⟨(c7_fetching_flags_amended
      (TableState.mk true false false false false (some (1, 2, (7:ℕ))))
      100 100 50 50 3 3).1 rfl,
   (c7_fetching_flags_amended
      (TableState.mk false false false false false (some (1, 2, (7:ℕ))))
      100 100 50 50 3 3).2 rfl⟩

/-- **C10**: the pagination page-change handler performs exactly a scroll of
the viewport to `(top 0, left 0)` followed by an `onPageChange` callback with
exactly the given page, in that order, and applying its effects to the widget
state leaves every state field unchanged. -/
theorem c10_handle_page_change (p : ℕ) (s : TableState α) :
    handlePageChange α p = [Effect.scrollTo 0 0, Effect.invokePageChange p] ∧
    (handlePageChange α p).foldl applyEffect s = s :=
  ⟨rfl, rfl⟩

/-- **C8**: clicking a rendered context-menu item emits the menu-clearing
write first and then invokes the item action with exactly the record stored in
the open menu; applying the first effect closes the menu; items whose hidden
predicate is true for the menu's record are not rendered; and the state holds
at most one menu instance. -/
theorem c8_menu_item_click (info : ℚ × ℚ × α) (items : List (MenuItem α))
    (record : α) (it : MenuItem α) (s : TableState α) :
    menuItemClick info =
      [Effect.setContextMenuInfo none, Effect.invokeItemClick info.2.2] ∧
    (applyEffect s (Effect.setContextMenuInfo none)).contextMenuInfo = none ∧
    (it.hiddenFor record = true → it ∉ renderedMenuItems items record) ∧
    (openMenuInstances s).length ≤ 1 := by
  refine ⟨rfl, rfl, ?_, ?_⟩
  · intro h
    simp [renderedMenuItems, List.mem_filter, h]
  · cases h : s.contextMenuInfo <;> simp [openMenuInstances, h]

/-- Witness for `c8_menu_item_click`: one item hidden for record `0`. -/
theorem c8_menu_item_click_witness :
    menuItemClick ((1:ℚ), (2:ℚ), (7:ℕ)) =
      [Effect.setContextMenuInfo none, Effect.invokeItemClick 7] ∧
    (applyEffect (TableState.mk false true true true true (some (1, 2, 7)))
        (Effect.setContextMenuInfo none)).contextMenuInfo = none ∧
    (MenuItem.mk "delete" fun _ : ℕ => true) ∉
      renderedMenuItems [MenuItem.mk "delete" fun _ : ℕ => true] 0 ∧
    (openMenuInstances
        (TableState.mk false true true true true (some (1, 2, (7:ℕ))))).length
      ≤ 1 :=
  have h := c8_menu_item_click ((1:ℚ), (2:ℚ), (7:ℕ))
    [MenuItem.mk "delete" fun _ : ℕ => true] 0
    (MenuItem.mk "delete" fun _ : ℕ => true)
    (TableState.mk false true true true true (some (1, 2, 7)))
  ⟨h.1, h.2.1, h.2.2.1 rfl, h.2.2.2⟩

theorem mem_keys_toggleRecord_of_mem (key : α → κ) (selectedRecords : List α)
    (record : α) (k : κ) (h : key record ∈ selectedRecords.map key) :
    k ∈ (toggleRecord key selectedRecords record).map key ↔
      k ∈ selectedRecords.map key ∧ k ≠ key record := by
  rw [toggleRecord, if_pos h]
  exact mem_keys_filter_key_ne key selectedRecords record k

theorem mem_keys_toggleRecord_of_not_mem (key : α → κ) (selectedRecords : List α)
    (record : α) (k : κ) (h : key record ∉ selectedRecords.map key) :
    k ∈ (toggleRecord key selectedRecords record).map key ↔
      k ∈ selectedRecords.map key ∨ k = key record := by
  rw [toggleRecord, if_neg h, mem_keys_append_uniqBy]
  simp

/-- **C6**: a single (non-shift) toggle of a record `r` of the record list
removes every selection entry whose key equals `r`'s key when `r` is selected,
and otherwise appends `r` with the result de-duplicated by key; toggling the
same record twice in succession returns a selection whose key set equals the
original one. -/
theorem c6_toggle_record (key : α → κ) (records selectedRecords : List α)
    (record : α) (k : κ) (_hr : record ∈ records) :
    (key record ∈ selectedRecords.map key →
      (k ∈ (toggleRecord key selectedRecords record).map key ↔
        k ∈ selectedRecords.map key ∧ k ≠ key record)) ∧
    (key record ∉ selectedRecords.map key →
      (k ∈ (toggleRecord key selectedRecords record).map key ↔
        k ∈ selectedRecords.map key ∨ k = key record)) ∧
    (k ∈ (toggleRecord key (toggleRecord key selectedRecords record)
        record).map key ↔
      k ∈ selectedRecords.map key) := by
  refine ⟨fun h => mem_keys_toggleRecord_of_mem key selectedRecords record k h,
    fun h => mem_keys_toggleRecord_of_not_mem key selectedRecords record k h, ?_⟩
  by_cases h : key record ∈ selectedRecords.map key
  · have h1 : ∀ k2, k2 ∈ (toggleRecord key selectedRecords record).map key ↔
        k2 ∈ selectedRecords.map key ∧ k2 ≠ key record :=
      fun k2 => mem_keys_toggleRecord_of_mem key selectedRecords record k2 h
    have h2 : key record ∉ (toggleRecord key selectedRecords record).map key :=
      fun hc => ((h1 _).mp hc).2 rfl
    rw [mem_keys_toggleRecord_of_not_mem key _ record k h2, h1 k]
    constructor
    · rintro (⟨hk, _⟩ | rfl)
      · exact hk
      · exact h
    · intro hk
      by_cases hkr : k = key record
      · exact Or.inr hkr
      · exact Or.inl ⟨hk, hkr⟩
  · have h1 : ∀ k2, k2 ∈ (toggleRecord key selectedRecords record).map key ↔
        k2 ∈ selectedRecords.map key ∨ k2 = key record :=
      fun k2 => mem_keys_toggleRecord_of_not_mem key selectedRecords record k2 h
    have h2 : key record ∈ (toggleRecord key selectedRecords record).map key :=
      (h1 _).mpr (Or.inr rfl)
    rw [mem_keys_toggleRecord_of_mem key _ record k h2, h1 k]
    constructor
    · rintro ⟨hk | rfl, hne⟩
      · exact hk
      · exact absurd rfl hne
    · intro hk
      exact ⟨Or.inl hk, fun hc => h (hc ▸ hk)⟩

/-- Witness for `c6_toggle_record`: toggling record `5` against selections
`[5]` (selected) and `[]` (unselected), and the double-toggle round trip. -/
theorem c6_toggle_record_witness :
    ((5:ℕ) ∈ (toggleRecord (fun n : ℕ => n) [5] 5).map (fun n : ℕ => n) ↔
      (5:ℕ) ∈ ([5] : List ℕ).map (fun n : ℕ => n) ∧ (5:ℕ) ≠ 5) ∧
    ((5:ℕ) ∈ (toggleRecord (fun n : ℕ => n) [] 5).map (fun n : ℕ => n) ↔
      (5:ℕ) ∈ ([] : List ℕ).map (fun n : ℕ => n) ∨ (5:ℕ) = 5) ∧
    ((5:ℕ) ∈ (toggleRecord (fun n : ℕ => n)
        (toggleRecord (fun n : ℕ => n) [5] 5) 5).map (fun n : ℕ => n) ↔
      (5:ℕ) ∈ ([5] : List ℕ).map (fun n : ℕ => n)) :=
  ⟨(c6_toggle_record (fun n : ℕ => n) [5] [5] 5 5 (by decide)).1 (by decide),
   (c6_toggle_record (fun n : ℕ => n) [5] [] 5 5 (by decide)).2.1 (by decide),
   (c6_toggle_record (fun n : ℕ => n) [5] [5] 5 5 (by decide)).2.2⟩

/-- **C2** counterexample: toggle-all twice does not return the original key
set when the selection partially overlaps the visible records. With records
`[1, 2]` and selection `[1]`: the first toggle-all selects all (`[1, 2]`), the
second deselects all (`[]`), losing key `1`. -/
theorem c2_toggle_all_counterexample :
    toggleAll (fun n : ℕ => n) [1, 2]
        (toggleAll (fun n : ℕ => n) [1, 2] [1]) = [] ∧
    (1:ℕ) ∈ ([1] : List ℕ).map (fun n : ℕ => n) ∧
    (1:ℕ) ∉ (toggleAll (fun n : ℕ => n) [1, 2]
        (toggleAll (fun n : ℕ => n) [1, 2] [1])).map (fun n : ℕ => n) := by
  decide

/-- **C2** (amended): invoking toggle-all twice in succession (records,
selection threading and accessor unchanged) returns a selection whose key set
equals the original selection's key set, provided the original selection does
not partially overlap the visible keys: either no visible key is selected, or
the selection is nonempty and every visible key is selected. -/
theorem c2_toggle_all_amended (key : α → κ) (records selectedRecords : List α)
    (k : κ)
    (h : (∀ i ∈ records.map key, i ∉ selectedRecords.map key) ∨
      (selectedRecords ≠ [] ∧
        ∀ i ∈ records.map key, i ∈ selectedRecords.map key)) :
    (k ∈ (toggleAll key records (toggleAll key records selectedRecords)).map key
      ↔ k ∈ selectedRecords.map key) := by
  cases hA : allRecordsSelected key records selectedRecords with
  | true =>
    obtain ⟨hSne, hsub⟩ :=
      (allRecordsSelected_iff key records selectedRecords).mp hA
    have h1 : ∀ k2, k2 ∈ (toggleAll key records selectedRecords).map key ↔
        k2 ∈ selectedRecords.map key ∧ k2 ∉ records.map key :=
      mem_keys_toggleAll_of_all key records selectedRecords hA
    by_cases hR : records = []
    · subst hR
      obtain ⟨s0, hs0⟩ := List.exists_mem_of_ne_nil selectedRecords hSne
      have hs0k : key s0 ∈ (toggleAll key [] selectedRecords).map key :=
        (h1 _).mpr ⟨List.mem_map_of_mem key hs0, by simp⟩
      have hA2 : allRecordsSelected key []
          (toggleAll key [] selectedRecords) = true :=
        (allRecordsSelected_iff _ _ _).mpr
          ⟨ne_nil_of_mem_keys key _ _ hs0k, by simp⟩
      rw [mem_keys_toggleAll_of_all key [] _ hA2]
      simp [h1 k]
    · obtain ⟨r0, hr0⟩ := List.exists_mem_of_ne_nil records hR
      have hr0k : key r0 ∈ records.map key := List.mem_map_of_mem key hr0
      have hA2 : allRecordsSelected key records
          (toggleAll key records selectedRecords) = false := by
        cases hB : allRecordsSelected key records
            (toggleAll key records selectedRecords) with
        | false => rfl
        | true =>
          obtain ⟨_, hsub2⟩ := (allRecordsSelected_iff _ _ _).mp hB
          exact absurd hr0k ((h1 _).mp (hsub2 (key r0) hr0k)).2
      rw [mem_keys_toggleAll_of_not_all key records _ hA2, h1 k]
      constructor
      · rintro (⟨hk, _⟩ | hk)
        · exact hk
        · exact hsub k hk
      · intro hk
        by_cases hkR : k ∈ records.map key
        · exact Or.inr hkR
        · exact Or.inl ⟨hk, hkR⟩
  | false =>
    have hdisj : ∀ i ∈ records.map key, i ∉ selectedRecords.map key := by
      rcases h with hd | ⟨hne, hsub⟩
      · exact hd
      · exact absurd ((allRecordsSelected_iff _ _ _).mpr ⟨hne, hsub⟩)
          (by simp [hA])
    have h1 : ∀ k2, k2 ∈ (toggleAll key records selectedRecords).map key ↔
        k2 ∈ selectedRecords.map key ∨ k2 ∈ records.map key :=
      mem_keys_toggleAll_of_not_all key records selectedRecords hA
    by_cases hR : records = []
    · subst hR
      have h1a : ∀ k2, k2 ∈ (toggleAll key [] selectedRecords).map key ↔
          k2 ∈ selectedRecords.map key := by
        intro k2; rw [h1 k2]; simp
      by_cases hS : selectedRecords = []
      · subst hS
        have hz : toggleAll key ([] : List α) ([] : List α) = [] := rfl
        rw [hz, hz]
      · obtain ⟨s0, hs0⟩ := List.exists_mem_of_ne_nil selectedRecords hS
        have hs0k : key s0 ∈ (toggleAll key [] selectedRecords).map key :=
          (h1a _).mpr (List.mem_map_of_mem key hs0)
        have hA2 : allRecordsSelected key []
            (toggleAll key [] selectedRecords) = true :=
          (allRecordsSelected_iff _ _ _).mpr
            ⟨ne_nil_of_mem_keys key _ _ hs0k, by simp⟩
        rw [mem_keys_toggleAll_of_all key [] _ hA2]
        simp [h1a k]
    · obtain ⟨r0, hr0⟩ := List.exists_mem_of_ne_nil records hR
      have hr0k : key r0 ∈ records.map key := List.mem_map_of_mem key hr0
      have hS1ne : toggleAll key records selectedRecords ≠ [] :=
        ne_nil_of_mem_keys key _ _ ((h1 _).mpr (Or.inr hr0k))
      have hA2 : allRecordsSelected key records
          (toggleAll key records selectedRecords) = true :=
        (allRecordsSelected_iff _ _ _).mpr
          ⟨hS1ne, fun i hi => (h1 i).mpr (Or.inr hi)⟩
      rw [mem_keys_toggleAll_of_all key records _ hA2, h1 k]
      constructor
      · rintro ⟨hk | hkR, hnR⟩
        · exact hk
        · exact absurd hkR hnR
      · intro hk
        exact ⟨Or.inl hk, fun hkR => hdisj k hkR hk⟩

/-- Witness for `c2_toggle_all_amended`: records `[1, 2]`, selection `[3]`
(disjoint from the visible keys), key `3`. -/
theorem c2_toggle_all_amended_witness :
    ((3:ℕ) ∈ (toggleAll (fun n : ℕ => n) [1, 2]
        (toggleAll (fun n : ℕ => n) [1, 2] [3])).map (fun n : ℕ => n) ↔
      (3:ℕ) ∈ ([3] : List ℕ).map (fun n : ℕ => n)) :=
  c2_toggle_all_amended (fun n : ℕ => n) [1, 2] [3] 3 (Or.inl (by decide))

/-- **C1**: the shift-range operation computes the inclusive index interval
`[min(a,j), max(a,j)]` over the record list; if the clicked row (the row at
index `j`) is currently unselected it adds every record of the interval to the
selection de-duplicated by key, and if it is currently selected it removes
every selection entry whose key matches an interval record; keys not matching
any interval record keep their selection status; and both the interval and the
operation are unchanged when the anchor and the clicked index trade places. -/
theorem c1_shift_range (key : α → κ) (records selectedRecords : List α)
    (a j : ℕ) (k : κ) (record : α)
    (_hrec : records.get? j = some record) :
    recordsInterval records a j =
      (records.enum.filter fun p => decide (min a j ≤ p.1 ∧ p.1 ≤ max a j)).map
        Prod.snd ∧
    (key record ∉ selectedRecords.map key →
      (k ∈ (shiftRangeToggle key records selectedRecords a j record).map key ↔
        k ∈ selectedRecords.map key ∨
          k ∈ (recordsInterval records a j).map key)) ∧
    (key record ∈ selectedRecords.map key →
      (k ∈ (shiftRangeToggle key records selectedRecords a j record).map key ↔
        k ∈ selectedRecords.map key ∧
          k ∉ (recordsInterval records a j).map key)) ∧
    (k ∉ (recordsInterval records a j).map key →
      (k ∈ (shiftRangeToggle key records selectedRecords a j record).map key ↔
        k ∈ selectedRecords.map key)) ∧
    shiftRangeToggle key records selectedRecords a j record =
      shiftRangeToggle key records selectedRecords j a record := by
  refine ⟨recordsInterval_min_max records a j, ?_, ?_, ?_, ?_⟩
  · intro h
    simp only [shiftRangeToggle]
    rw [if_neg h]
    exact mem_keys_append_uniqBy key selectedRecords _ k
  · intro h
    simp only [shiftRangeToggle]
    rw [if_pos h]
    exact mem_keys_differenceBy key selectedRecords _ k
  · intro hkI
    by_cases h : key record ∈ selectedRecords.map key
    · simp only [shiftRangeToggle]
      rw [if_pos h, mem_keys_differenceBy]
      constructor
      · rintro ⟨hk, _⟩; exact hk
      · intro hk; exact ⟨hk, hkI⟩
    · simp only [shiftRangeToggle]
      rw [if_neg h, mem_keys_append_uniqBy]
      constructor
      · rintro (hk | hk)
        · exact hk
        · exact absurd hk hkI
      · exact Or.inl
  · simp only [shiftRangeToggle]
    rw [recordsInterval_comm records a j]

/-- Witness for `c1_shift_range`: records `[10, 20]`, selection `[10]`,
anchor `0`, clicked index `1` (record `20`, unselected), key `20`. -/
theorem c1_shift_range_witness :
    recordsInterval ([10, 20] : List ℕ) 0 1 =
      (([10, 20] : List ℕ).enum.filter fun p =>
        decide (min 0 1 ≤ p.1 ∧ p.1 ≤ max 0 1)).map Prod.snd ∧
    ((20:ℕ) ∈ (shiftRangeToggle (fun n : ℕ => n) [10, 20] [10] 0 1 20).map
        (fun n : ℕ => n) ↔
      (20:ℕ) ∈ ([10] : List ℕ).map (fun n : ℕ => n) ∨
        (20:ℕ) ∈ (recordsInterval ([10, 20] : List ℕ) 0 1).map
          (fun n : ℕ => n)) ∧
    shiftRangeToggle (fun n : ℕ => n) [10, 20] [10] 0 1 20 =
      shiftRangeToggle (fun n : ℕ => n) [10, 20] [10] 1 0 20 :=
  have h := c1_shift_range (fun n : ℕ => n) [10, 20] [10] 0 1 20 20 rfl
  ⟨h.1, h.2.1 (by decide), h.2.2.2.2⟩

/-- **C9**: every selection produced by an add-type operation — plain toggle
of an unselected row, toggle-all when not all visible records are selected, or
shift-range add — has pairwise distinct accessor-derived keys, even when the
input selection contained duplicate keys. -/
theorem c9_add_ops_distinct_keys (key : α → κ) (records selectedRecords : List α)
    (a j : ℕ) (record : α) :
    (key record ∉ selectedRecords.map key →
      (toggleRecord key selectedRecords record).Pairwise
        fun x y => key x ≠ key y) ∧
    (allRecordsSelected key records selectedRecords = false →
      (toggleAll key records selectedRecords).Pairwise
        fun x y => key x ≠ key y) ∧
    (key record ∉ selectedRecords.map key →
      (shiftRangeToggle key records selectedRecords a j record).Pairwise
        fun x y => key x ≠ key y) := by
  refine ⟨?_, ?_, ?_⟩
  · intro h
    rw [toggleRecord, if_neg h]
    exact pairwise_keys_uniqBy key _
  · intro h
    rw [toggleAll, if_neg (by simp [h])]
    exact pairwise_keys_uniqBy key _
  · intro h
    simp only [shiftRangeToggle]
    rw [if_neg h]
    exact pairwise_keys_uniqBy key _

/-- Witness for `c9_add_ops_distinct_keys`: input selection `[1, 1]` with a
duplicate key, record `2`, records `[2]`. -/
theorem c9_add_ops_distinct_keys_witness :
    ((toggleRecord (fun n : ℕ => n) [1, 1] 2).Pairwise
      fun x y => (fun n : ℕ => n) x ≠ (fun n : ℕ => n) y) ∧
    ((toggleAll (fun n : ℕ => n) [2] [1, 1]).Pairwise
      fun x y => (fun n : ℕ => n) x ≠ (fun n : ℕ => n) y) ∧
    ((shiftRangeToggle (fun n : ℕ => n) [2] [1, 1] 0 0 2).Pairwise
      fun x y => (fun n : ℕ => n) x ≠ (fun n : ℕ => n) y) :=
  have h := c9_add_ops_distinct_keys (fun n : ℕ => n) [2] [1, 1] 0 0 2
  ⟨h.1 (by decide), h.2.1 (by decide), h.2.2 (by decide)⟩

/-- **C4** counterexample: the change-detection value `recordIds.join(':')` is
not injective on key sequences — `["a:b"]` and `["a", "b"]` differ but join to
the same string, so this dataset change does not reset the anchor. -/
theorem c4_join_collision :
    recordIdsString (some ["a:b"]) = recordIdsString (some ["a", "b"]) ∧
    (["a:b"] : List String) ≠ ["a", "b"] ∧
    stepRecordIdsChange (some 5) (some ["a:b"]) (some ["a", "b"]) = some 5 := by
  refine ⟨by decide, by decide, by decide⟩

/-- **C4** (amended): the shift-selection anchor resets to unset whenever the
colon-joined id string changes (which covers key-sequence changes whose joined
strings differ, though not join collisions such as ids containing `:`), and
with the anchor unset a shift-click behaves as a plain toggle of only the
clicked row. -/
theorem c4_anchor_reset_amended (anchor : Option ℕ)
    (oldIds newIds : Option (List String)) (key : α → κ)
    (records selectedRecords : List α) (record : α) (i : ℕ)
    (h : recordIdsString oldIds ≠ recordIdsString newIds) :
    stepRecordIdsChange anchor oldIds newIds = none ∧
    rowSelectionChange key records selectedRecords none true record i =
      (toggleRecord key selectedRecords record, some i) :=
  ⟨by rw [stepRecordIdsChange, if_neg h], rfl⟩

/-- Witness for `c4_anchor_reset_amended`: id sequences `["a"]` and `["b"]`
whose joined strings differ. -/
theorem c4_anchor_reset_amended_witness :
    stepRecordIdsChange (some 5) (some ["a"]) (some ["b"]) = none ∧
    rowSelectionChange (fun n : ℕ => n) [1] [1] none true 1 0 =
      (toggleRecord (fun n : ℕ => n) [1] 1, some 0) :=
  c4_anchor_reset_amended (some 5) (some ["a"]) (some ["b"])
    (fun n : ℕ => n) [1] [1] 1 0 (by decide)

end DataTable
